import Mathlib

/-
Verification development for swirl/processors/transform_query_processor.py.

The file shallowly embeds the module's data model and operations:
  - TransformQueryProcessorFactory.alloc_query_transform
  - AbstractTransformQueryProcessor (config row filtering, parse_config guard)
  - RewriteQueryProcessor (_parse_cline, process with re.sub)
  - SynonymQueryProcessor (_parse_cline, process with the two-cursor scan)
  - SynonymBagQueryProcessor (_parse_cline, process)

Python strings are Lean `String`s; most computation is done on the underlying
`List Char`.  Python dicts (used only through get / item-assignment with
insertion-order iteration) are association lists.  The external collaborators
`clean_string` and `str_tok_get_prefixes` (imported from swirl.processors.utils,
not part of this repository snapshot) are modelled from the spec.  Python's
`re` module is modelled for the pattern subset the module's configurations
exercise: literal characters, '.', the escapes \b and \s, and the greedy
quantifier '?'; patterns outside that subset (or genuinely invalid ones, such
as a dangling '?') are rejected by the pattern reader, and rejection stands
for the `re.error` exception at `re.sub` time.
-/

/-! ## Python-style character and string helpers -/

/-- Whitespace characters recognised by Python's `str.split` / `str.strip`. -/
def isPySpace (c : Char) : Bool :=
  c == ' ' || c == '\t' || c == '\n' || c == '\r' || c == '\x0b' || c == '\x0c'

/-- Auxiliary splitter for Python's `str.split()`: splits on runs of
whitespace, returning no empty pieces.  `acc` holds the current (reversed)
in-progress token. -/
def splitWsAux : List Char → List Char → List (List Char)
  | [], acc => if acc = [] then [] else [acc.reverse]
  | c :: cs, acc =>
    if isPySpace c then
      if acc = [] then splitWsAux cs [] else acc.reverse :: splitWsAux cs []
    else
      splitWsAux cs (c :: acc)

/-- Python `str.split()` on a character list. -/
def splitWs (l : List Char) : List (List Char) := splitWsAux l []

/-- Python `s.split()` producing strings. -/
def pyWords (s : String) : List String := (splitWs s.data).map String.mk

/-- Remove leading whitespace (Python `lstrip`). -/
def dropLeadWs (l : List Char) : List Char := l.dropWhile isPySpace

/-- Python `str.strip()` on a character list. -/
def trimWs (l : List Char) : List Char :=
  ((dropLeadWs l).reverse.dropWhile isPySpace).reverse

/-- Python `s.strip()`. -/
def pyStrip (s : String) : String := String.mk (trimWs s.data)

/-- Python `' '.join` (also used for `' OR '.join` with another separator). -/
def joinSep (sep : String) : List String → String
  | [] => ""
  | [t] => t
  | t :: ts => t ++ sep ++ joinSep sep ts

/-- Python `' '.join`. -/
def joinToks (l : List String) : String := joinSep " " l

/-- Core of Python `str.split(sep)` for a one-character separator: returns the
first piece and the remaining pieces. -/
def splitCh (sep : Char) : List Char → List Char × List (List Char)
  | [] => ([], [])
  | c :: cs =>
    let r := splitCh sep cs
    if c = sep then ([], r.1 :: r.2) else (c :: r.1, r.2)

/-- Python `s.split(';')`-style splitting (empty pieces kept). -/
def splitOnCh (sep : Char) (s : String) : List String :=
  ((splitCh sep s.data).1 :: (splitCh sep s.data).2).map String.mk

/-- Number of whitespace-delimited tokens: Python `len(p_str.split())`. -/
def numToks (s : String) : Nat := (splitWs s.data).length

/-! ## Model of the Python `re` subset used by RewriteQueryProcessor

The module builds patterns of the shape `\b<word>\b\s?` itself and otherwise
passes configuration field 0 to `re.sub` verbatim.  The model covers literal
characters, `.`, `\b`, `\s` and the greedy `?`.  `parseRE` returns `none` both
for patterns that are invalid in Python (dangling `?`, trailing backslash) and
for patterns outside the modelled subset; a `none` pattern makes the rewrite
engine's `process` fail, standing for the `re.error` Python raises.  The
replacement argument of `re.sub` is a template in Python too; see `reSub` for
how its error path is modelled. -/

/-- Regex tokens of the modelled subset. -/
inductive RTok where
  | lit : Char → RTok
  | dot : RTok
  | wordB : RTok
  | spaceCls : RTok
  | opt : RTok → RTok
deriving DecidableEq

/-- Characters that carry regex meaning outside the modelled subset. -/
def isUnmodeledMeta (c : Char) : Bool :=
  c == '*' || c == '+' || c == '(' || c == ')' || c == '[' || c == ']' ||
  c == '\x7b' || c == '\x7d' || c == '|' || c == '^' || c == '$'

/-- Pattern reader: `acc` holds the tokens read so far, reversed, so that `?`
can attach to the most recent atom. -/
def parseREAux : List Char → List RTok → Option (List RTok)
  | [], acc => some acc.reverse
  | '\\' :: [], _ => none
  | '\\' :: c :: rest, acc =>
    if c = 'b' then parseREAux rest (.wordB :: acc)
    else if c = 's' then parseREAux rest (.spaceCls :: acc)
    else if c.isAlpha || c.isDigit then none
    else parseREAux rest (.lit c :: acc)
  | '?' :: rest, acc =>
    match acc with
    | [] => none
    | t :: acc' => parseREAux rest (.opt t :: acc')
  | '.' :: rest, acc => parseREAux rest (.dot :: acc)
  | c :: rest, acc =>
    if isUnmodeledMeta c then none else parseREAux rest (.lit c :: acc)

/-- Read a pattern string. -/
def parseRE (s : String) : Option (List RTok) := parseREAux s.data []

/-- Word characters for `\b` (ASCII view of Python's `\w`). -/
def isWordChar (c : Char) : Bool := c.isAlphanum || c == '_'

/-- Is position `i` of `s` a `\b` word boundary? -/
def wordBoundaryAt (s : List Char) (i : Nat) : Bool :=
  (decide (0 < i) && isWordChar (s.getD (i - 1) ' '))
    != (decide (i < s.length) && isWordChar (s.getD i ' '))

/-- The end position a single token reaches from position `i` when it
matches greedily (for a nested `opt` the greedy choice is folded in; the
module's own patterns never nest quantifiers). -/
def tokMatch1 : RTok → List Char → Nat → Option Nat
  | .wordB, s, i => if wordBoundaryAt s i then some i else none
  | .lit c, s, i =>
    if decide (i < s.length) && (s.getD i ' ' == c) then some (i + 1) else none
  | .dot, s, i =>
    if decide (i < s.length) && (s.getD i ' ' != '\n') then some (i + 1) else none
  | .spaceCls, s, i =>
    if decide (i < s.length) && isPySpace (s.getD i ' ') then some (i + 1) else none
  | .opt t, s, i =>
    match tokMatch1 t s i with
    | some j => some j
    | none => some i

/-- Match the token list at position `i` the way Python's engine does: each
atom matches greedily, and a greedy `?` backs off to the empty alternative
when the rest of the pattern fails after it. -/
def matchToks : List RTok → List Char → Nat → Option Nat
  | [], _, i => some i
  | .opt t :: ts, s, i =>
    (match tokMatch1 t s i with
     | some j =>
       match matchToks ts s j with
       | some e => some e
       | none => matchToks ts s i
     | none => matchToks ts s i)
  | t :: ts, s, i =>
    match tokMatch1 t s i with
    | some j => matchToks ts s j
    | none => none

/-- Scan for the leftmost match trying positions `i`, `i+1`, ... ; the fuel
counts the positions still to try. -/
def searchFromGo (ts : List RTok) (s : List Char) : Nat → Nat → Option (Nat × Nat)
  | _, 0 => none
  | i, fuel + 1 =>
    match matchToks ts s i with
    | some e => some (i, e)
    | none => searchFromGo ts s (i + 1) fuel

/-- Leftmost match at a position `≥ i`: returns (start, end).  Positions up
to and including `s.length` are tried. -/
def searchFrom (ts : List RTok) (s : List Char) (i : Nat) : Option (Nat × Nat) :=
  searchFromGo ts s i (s.length + 1 - i)

/-- Global substitution loop of `re.sub` (Python ≥ 3.7 empty-match rule:
an empty match copies the current character and advances by one).  The fuel
strictly exceeds the number of loop steps, which advance the position each
time. -/
def reSubLoop (ts : List RTok) (repl : List Char) (s : List Char) :
    Nat → Nat → List Char
  | _, 0 => []
  | pos, fuel + 1 =>
    match searchFrom ts s pos with
    | none => s.drop pos
    | some (b, e) =>
      ((s.drop pos).take (b - pos)) ++ repl ++
        (if b < e then reSubLoop ts repl s e fuel
         else if b < s.length then s.getD b ' ' :: reSubLoop ts repl s (b + 1) fuel
         else [])

/-- Model of `re.sub(pat, repl, s)`; `none` stands for `re.error`.  Python
also processes the replacement string as a template (backslash escapes and
group references).  The model covers backslash-free replacements, which are
spliced literally exactly as Python splices them, and rejects every template
containing a backslash: that stands both for the genuine `re.error` cases (a
lone trailing backslash; a group reference such as `\1` when the pattern has
no groups — and no modelled pattern has any) and for escape processing
outside the modelled subset. -/
def reSub (pat repl s : String) : Option String :=
  match parseRE pat with
  | none => none
  | some ts =>
    if '\\' ∈ repl.data then none
    else some (String.mk (reSubLoop ts repl.data s.data 0 (s.data.length + 2)))

/-! ## Modelled external collaborators (swirl.processors.utils) -/

/-- Modelled from the spec: the external `clean_string` collaborator
("normalizes the input into a scannable plain string"; whitespace is
collapsed, tokens and casing are preserved).  Modelled as whitespace
normalization. -/
def cleanString (s : String) : String := joinToks (pyWords s)

/-- Length-descending candidate phrases starting at the head of `l`:
the joins of the first `l.length`, `l.length - 1`, ..., `1` tokens. -/
def candDesc (l : List String) : List String :=
  (List.range l.length).map (fun k => joinToks (l.take (l.length - k)))

/-- Modelled from the spec: the external `str_tok_get_prefixes` collaborator.
Per the spec, for each start position (ascending) it lists the joins of the
consecutive tokens from that position, longest first. -/
def strTokGetPrefixes : List String → List String
  | [] => []
  | t :: rest => candDesc (t :: rest) ++ strTokGetPrefixes rest

/-! ## Data model -/

/-- Embeds `_ConfigReplacePattern`: one pattern and its replacement list. -/
structure ConfigReplacePattern where
  pattern : String
  replace : List String
deriving DecidableEq

/-- The three concrete subclasses of `AbstractTransformQueryProcessor`. -/
inductive QxfVariant where
  | rewrite
  | synonym
  | bag
deriving DecidableEq

/-- Instance state shared by the three transformers: the fields set in
`AbstractTransformQueryProcessor.__init__` plus the variant tag standing for
the Python subclass.  `config` holds the configuration as the row lists the
csv reader yields; `replace_index` is the insertion-ordered dict. -/
structure TState where
  variant : QxfVariant
  query_string : String
  name : String
  config : List (List String)
  config_parsed : Bool
  replace_patterns : List ConfigReplacePattern
  replace_index : List (String × ConfigReplacePattern)
deriving DecidableEq

/-- Embeds `__init__`: fresh instance, nothing parsed. -/
def initState (v : QxfVariant) (queryString procName : String)
    (config : List (List String)) : TState :=
  { variant := v, query_string := queryString, name := procName,
    config := config, config_parsed := false,
    replace_patterns := [], replace_index := [] }

/-- Embeds `TransformQueryProcessorFactory.alloc_query_transform`; the
`ValueError` is an `Except.error`. -/
def allocQueryTransform (qxfType queryString procName : String)
    (config : List (List String)) : Except String TState :=
  if qxfType = "rewrite" then .ok (initState .rewrite queryString procName config)
  else if qxfType = "synonym" then .ok (initState .synonym queryString procName config)
  else if qxfType = "bag" then .ok (initState .bag queryString procName config)
  else .error "Invalid Query Transform Processor type"

/-! ## Shared parsing machinery -/

/-- Embeds the row filter of `_config_next_line`: a row is skipped when it is
empty, its first field is empty, or its first field starts with '#'. -/
def keptRows (rows : List (List String)) : List (List String) :=
  rows.filter (fun r =>
    match r with
    | [] => false
    | f :: _ => decide (f ≠ "") && (f.data.headD '#' != '#'))

/-- Embeds `_get_synonyms`: dict lookup on an association list. -/
def lookupA (l : List (String × ConfigReplacePattern)) (k : String) :
    Option ConfigReplacePattern :=
  match l with
  | [] => none
  | (k', v) :: t => if k' = k then some v else lookupA t k

/-- In-place update of the entry stored under `k` (Python mutates the entry
object, keeping its dict position). -/
def updateA (l : List (String × ConfigReplacePattern)) (k : String)
    (v : ConfigReplacePattern) : List (String × ConfigReplacePattern) :=
  match l with
  | [] => []
  | (k', v') :: t => if k' = k then (k', v) :: t else (k', v') :: updateA t k v

/-- Embeds `_get_synonyms` (empty dict and missing key both give `[]`). -/
def getSynonyms (idx : List (String × ConfigReplacePattern)) (w : String) :
    List String :=
  match lookupA idx w with
  | none => []
  | some e => e.replace

/-! ## RewriteQueryProcessor -/

/-- Embeds `RewriteQueryProcessor._parse_cline`.  One field wraps the pattern
as `\b<field>\b\s?` with empty replacement; two or more fields use field 0 as
the raw pattern and field 1 as the replacement.  Field 0 is then split on ';'
into independent sub-patterns sharing the replacement, each stripped.
(`_cline_is_valid` with minimum 1 only rejects the empty row.) -/
def rewriteParseCline (pats : List ConfigReplacePattern)
    (cline : List String) : List ConfigReplacePattern :=
  match cline with
  | [] => pats
  | [p0] =>
    pats ++ (splitOnCh ';' ("\\b" ++ p0 ++ "\\b\\s?")).map
      (fun p => ⟨pyStrip p, [pyStrip ""]⟩)
  | p0 :: p1 :: _ =>
    pats ++ (splitOnCh ';' p0).map (fun p => ⟨pyStrip p, [pyStrip p1]⟩)

/-! ## SynonymQueryProcessor -/

/-- Embeds `SynonymQueryProcessor._parse_cline`.  Rows with fewer than two
fields are skipped.  The dict key is `cline[0].strip()`; the entry's pattern
field is the whitespace-collapsed form; a repeated key appends to the existing
entry's replacement list. -/
def synParseCline (idx : List (String × ConfigReplacePattern))
    (cline : List String) : List (String × ConfigReplacePattern) :=
  match cline with
  | [] => idx
  | [_] => idx
  | w :: r :: _ =>
    let word := pyStrip w
    let normalWord := joinToks (pyWords word)
    let repl := pyStrip r
    match lookupA idx word with
    | none => idx ++ [(word, ⟨normalWord, [repl]⟩)]
    | some e => updateA idx word ⟨e.pattern, e.replace ++ [repl]⟩

/-! ## SynonymBagQueryProcessor -/

/-- One step of the bag-row loop: a word already in the dict is kept as is
(only a warning is logged), otherwise it maps to the full trimmed row `s`. -/
def bagInsertWord (s : List String) (acc : List (String × ConfigReplacePattern))
    (w : String) : List (String × ConfigReplacePattern) :=
  match lookupA acc w with
  | some _ => acc
  | none => acc ++ [(w, ⟨w, s⟩)]

/-- Embeds `SynonymBagQueryProcessor._parse_cline`: every trimmed field of the
row is a member of one bag, inserted first-wins. -/
def bagParseCline (idx : List (String × ConfigReplacePattern))
    (cline : List String) : List (String × ConfigReplacePattern) :=
  match cline with
  | [] => idx
  | _ =>
    let s := cline.map pyStrip
    s.foldl (bagInsertWord s) idx

/-! ## parse_config and the process methods -/

/-- Dispatches `_parse_cline` on the subclass. -/
def parseClineState (st : TState) (cline : List String) : TState :=
  match st.variant with
  | .rewrite => { st with replace_patterns := rewriteParseCline st.replace_patterns cline }
  | .synonym => { st with replace_index := synParseCline st.replace_index cline }
  | .bag => { st with replace_index := bagParseCline st.replace_index cline }

/-- Embeds `parse_config`: returns unchanged when the parsed flag is set,
otherwise feeds every kept row to `_parse_cline` and sets the flag.  (The
`csv.Error` path of `_config_start`, which would leave the flag unset, cannot
occur for in-memory row lists and is not modelled.) -/
def parseConfig (st : TState) : TState :=
  if st.config_parsed then st
  else { (keptRows st.config).foldl parseClineState st with config_parsed := true }

/-- Embeds `RewriteQueryProcessor.process`'s rule loop: apply each pattern in
table order over the running string; a pattern `re` rejects raises
(`none`). -/
def applyRules : List ConfigReplacePattern → String → Option String
  | [], s => some s
  | rp :: rest, s =>
    match reSub rp.pattern (rp.replace.headD "") s with
    | none => none
    | some t => applyRules rest t

/-- Embeds `RewriteQueryProcessor.process`: parse lazily, clean and strip the
query, return it unchanged when empty, otherwise run the rules in order.
The pair carries the instance state after the call. -/
def rewriteProcess (st : TState) : Option String × TState :=
  let st' := parseConfig st
  let ret := pyStrip (cleanString st'.query_string)
  if ret = "" then (some ret, st')
  else (applyRules st'.replace_patterns ret, st')

/-- One OR-group fragment: `'(' + ' OR '.join([p_str] + syns) + ')'`. -/
def orGroup (p : String) (syns : List String) : String :=
  "(" ++ joinSep " OR " (p :: syns) ++ ")"

/-- Embeds the while loop of `SynonymQueryProcessor.process`.  `prfx` is the
not-yet-visited tail of the candidate list (`index_p_str` advances one entry
per iteration); `processed` is `n_q_toks_processed`; `acc` collects output
fragments in reverse.  Reading past the end of the candidate list is Python's
`IndexError`, modelled as `none`. -/
def synScan (idx : List (String × ConfigReplacePattern)) (qlen : Nat) :
    List String → Nat → List String → Option (List String)
  | prfx, processed, acc =>
    if qlen ≤ processed then some acc.reverse
    else
      match prfx with
      | [] => none
      | p :: rest =>
        let syns := getSynonyms idx p
        if syns ≠ [] then
          synScan idx qlen rest (processed + numToks p) (orGroup p syns :: acc)
        else if numToks p = 1 then
          synScan idx qlen rest (processed + 1) (p :: acc)
        else
          synScan idx qlen rest processed acc

/-- Embeds `SynonymQueryProcessor.process`.  `none` stands for an uncaught
exception. -/
def synonymProcess (st : TState) : Option String × TState :=
  let st' := parseConfig st
  let ret := pyStrip (cleanString st'.query_string)
  if ret = "" then (some ret, st')
  else
    let qToks := pyWords ret
    let prfxStrs := strTokGetPrefixes qToks
    ((synScan st'.replace_index qToks.length prfxStrs 0 []).map
        (fun frags => joinToks frags), st')

/-- Embeds `SynonymBagQueryProcessor.process`: clean and return; note that it
does not call `parse_config`. -/
def bagProcess (st : TState) : String × TState :=
  (pyStrip (cleanString st.query_string), st)

/-! ## Helper lemmas: strings and splitting -/

theorem stringMkData (s : String) : String.mk s.data = s := rfl

theorem splitWsAux_mem_good : ∀ (l acc : List Char),
    (∀ c ∈ acc, isPySpace c = false) →
    ∀ w ∈ splitWsAux l acc, w ≠ [] ∧ ∀ c ∈ w, isPySpace c = false := by
  intro l
  induction l with
  | nil =>
    intro acc hacc w hw
    simp only [splitWsAux] at hw
    split at hw
    · simp at hw
    · next hne =>
      simp only [List.mem_singleton] at hw
      subst hw
      refine ⟨by simpa using hne, ?_⟩
      intro c hc
      exact hacc c (List.mem_reverse.mp hc)
  | cons c cs ih =>
    intro acc hacc w hw
    simp only [splitWsAux] at hw
    by_cases hsp : isPySpace c = true
    · rw [if_pos hsp] at hw
      by_cases hacc0 : acc = []
      · rw [if_pos hacc0] at hw
        exact ih [] (by simp) w hw
      · rw [if_neg hacc0] at hw
        rcases List.mem_cons.mp hw with h | h
        · subst h
          refine ⟨by simpa using hacc0, ?_⟩
          intro c' hc'
          exact hacc c' (List.mem_reverse.mp hc')
        · exact ih [] (by simp) w h
    · rw [if_neg hsp] at hw
      refine ih (c :: acc) ?_ w hw
      intro c' hc'
      rcases List.mem_cons.mp hc' with h | h
      · subst h
        simpa using hsp
      · exact hacc c' h

theorem splitWsAux_no_ws : ∀ (l acc : List Char),
    (∀ c ∈ l, isPySpace c = false) →
    splitWsAux l acc = if acc = [] ∧ l = [] then [] else [acc.reverse ++ l] := by
  intro l
  induction l with
  | nil =>
    intro acc _
    by_cases hacc : acc = [] <;> simp [splitWsAux, hacc]
  | cons c cs ih =>
    intro acc h
    have hc : isPySpace c = false := h c (by simp)
    simp only [splitWsAux, hc, Bool.false_eq_true, if_false]
    rw [ih (c :: acc) (fun c' hc' => h c' (List.mem_cons_of_mem _ hc'))]
    simp [List.append_assoc]

theorem pyWords_numToks (s : String) : ∀ t ∈ pyWords s, numToks t = 1 := by
  intro t ht
  simp only [pyWords, List.mem_map] at ht
  obtain ⟨w, hw, rfl⟩ := ht
  have hg := splitWsAux_mem_good s.data [] (by simp) w hw
  simp only [numToks]
  rw [show splitWs w = splitWsAux w [] from rfl, splitWsAux_no_ws w [] hg.2]
  simp [hg.1]

theorem splitCh_no_sep (sep : Char) : ∀ l : List Char, sep ∉ l → splitCh sep l = (l, []) := by
  intro l
  induction l with
  | nil => intro _; rfl
  | cons c cs ih =>
    intro h
    have hcs : sep ∉ cs := fun hm => h (List.mem_cons_of_mem _ hm)
    have hc : ¬(c = sep) := fun he => h (by simp [he])
    simp [splitCh, ih hcs, hc]

theorem splitOnCh_no_sep (sep : Char) (s : String) (h : sep ∉ s.data) :
    splitOnCh sep s = [s] := by
  simp [splitOnCh, splitCh_no_sep sep s.data h, stringMkData]

theorem trimWs_of_ends (c d : Char) (l : List Char)
    (hc : isPySpace c = false) (hd : isPySpace d = false) :
    trimWs (c :: (l ++ [d])) = c :: (l ++ [d]) := by
  simp only [trimWs, dropLeadWs]
  rw [List.dropWhile_cons_of_neg (by simp [hc])]
  have hrev : (c :: (l ++ [d])).reverse = d :: (l.reverse ++ [c]) := by simp
  rw [hrev, List.dropWhile_cons_of_neg (by simp [hd])]
  simp

theorem trimWs_bwrap (m : List Char) :
    trimWs ('\\' :: 'b' :: m ++ ['\\', 'b', '\\', 's', '?'])
      = '\\' :: 'b' :: m ++ ['\\', 'b', '\\', 's', '?'] := by
  have h := trimWs_of_ends '\\' '?' ('b' :: m ++ ['\\', 'b', '\\', 's'])
    (by decide) (by decide)
  simpa using h

theorem pyStrip_bwrap (w : String) :
    pyStrip ("\\b" ++ w ++ "\\b\\s?") = "\\b" ++ w ++ "\\b\\s?" := by
  show String.mk (trimWs ('\\' :: 'b' :: w.data ++ ['\\', 'b', '\\', 's', '?'])) = _
  rw [trimWs_bwrap]
  rfl

/-! ## Helper lemmas: parse_config lifecycle -/

theorem parseConfig_of_parsed (st : TState) (h : st.config_parsed = true) :
    parseConfig st = st := by
  simp [parseConfig, h]

theorem parseConfig_parsed (st : TState) : (parseConfig st).config_parsed = true := by
  unfold parseConfig
  split
  · assumption
  · rfl

theorem parseConfig_idem (st : TState) : parseConfig (parseConfig st) = parseConfig st :=
  parseConfig_of_parsed _ (parseConfig_parsed st)

theorem rewriteProcess_snd (st : TState) : (rewriteProcess st).2 = parseConfig st := by
  simp only [rewriteProcess]
  split <;> rfl

theorem synonymProcess_snd (st : TState) : (synonymProcess st).2 = parseConfig st := by
  simp only [synonymProcess]
  split <;> rfl

theorem rewriteProcess_again (st : TState) :
    rewriteProcess ((rewriteProcess st).2) = rewriteProcess st := by
  rw [rewriteProcess_snd]
  simp only [rewriteProcess, parseConfig_idem]

theorem synonymProcess_again (st : TState) :
    synonymProcess ((synonymProcess st).2) = synonymProcess st := by
  rw [synonymProcess_snd]
  simp only [synonymProcess, parseConfig_idem]

/-! ## Helper lemmas: association lists -/

theorem lookupA_append_some {l1 : List (String × ConfigReplacePattern)} {k : String}
    {e : ConfigReplacePattern} (h : lookupA l1 k = some e)
    (l2 : List (String × ConfigReplacePattern)) : lookupA (l1 ++ l2) k = some e := by
  induction l1 with
  | nil => simp [lookupA] at h
  | cons hd tl ih =>
    obtain ⟨k', v⟩ := hd
    by_cases hk : k' = k
    · subst hk
      simp [lookupA] at h
      simp [lookupA, h]
    · simp only [lookupA, if_neg hk] at h
      simpa [lookupA, hk] using ih h

theorem lookupA_append_none {l1 : List (String × ConfigReplacePattern)} {k : String}
    (h : lookupA l1 k = none) (l2 : List (String × ConfigReplacePattern)) :
    lookupA (l1 ++ l2) k = lookupA l2 k := by
  induction l1 with
  | nil => rfl
  | cons hd tl ih =>
    obtain ⟨k', v⟩ := hd
    by_cases hk : k' = k
    · simp [lookupA, hk] at h
    · simp only [lookupA, if_neg hk] at h
      simpa [lookupA, hk] using ih h

theorem lookupA_updateA_self {l : List (String × ConfigReplacePattern)} {k : String}
    {e : ConfigReplacePattern} (h : lookupA l k = some e) (v : ConfigReplacePattern) :
    lookupA (updateA l k v) k = some v := by
  induction l with
  | nil => simp [lookupA] at h
  | cons hd tl ih =>
    obtain ⟨k', v'⟩ := hd
    by_cases hk : k' = k
    · subst hk
      simp [lookupA, updateA]
    · simp only [lookupA, if_neg hk] at h
      simpa [lookupA, updateA, hk] using ih h

theorem lookupA_updateA_ne {l : List (String × ConfigReplacePattern)} {k k' : String}
    (v : ConfigReplacePattern) (h : k' ≠ k) :
    lookupA (updateA l k v) k' = lookupA l k' := by
  induction l with
  | nil => rfl
  | cons hd tl ih =>
    obtain ⟨k0, v0⟩ := hd
    by_cases hk : k0 = k
    · subst hk
      have hne : ¬(k0 = k') := fun hh => h (hh ▸ rfl)
      simp [lookupA, updateA, hne]
    · simp only [updateA, if_neg hk]
      by_cases hk' : k0 = k'
      · simp [lookupA, hk']
      · simpa [lookupA, hk'] using ih

/-! ## Helper lemmas: bag parsing (first wins) -/

theorem bagInsertWord_preserves {acc : List (String × ConfigReplacePattern)}
    {w : String} {e : ConfigReplacePattern} (h : lookupA acc w = some e)
    (s : List String) (w' : String) : lookupA (bagInsertWord s acc w') w = some e := by
  unfold bagInsertWord
  cases hl : lookupA acc w' with
  | some _ => exact h
  | none => exact lookupA_append_some h _

theorem bagFold_preserves {acc : List (String × ConfigReplacePattern)}
    {w : String} {e : ConfigReplacePattern} (s : List String) :
    ∀ ws : List String, lookupA acc w = some e →
      lookupA (ws.foldl (bagInsertWord s) acc) w = some e := by
  intro ws
  induction ws generalizing acc with
  | nil => intro h; exact h
  | cons w' tl ih =>
    intro h
    exact ih (bagInsertWord_preserves h s w')

theorem bagFold_inserts (s : List String) :
    ∀ (ws : List String) (acc : List (String × ConfigReplacePattern)) (w : String),
      w ∈ ws → lookupA acc w = none →
      lookupA (ws.foldl (bagInsertWord s) acc) w = some ⟨w, s⟩ := by
  intro ws
  induction ws with
  | nil => intro acc w hmem; exact absurd hmem (List.not_mem_nil w)
  | cons w' tl ih =>
    intro acc w hmem hnone
    rcases List.mem_cons.mp hmem with h | h
    · subst h
      have hstep : lookupA (bagInsertWord s acc w) w = some ⟨w, s⟩ := by
        unfold bagInsertWord
        rw [hnone, lookupA_append_none hnone]
        simp [lookupA]
      exact bagFold_preserves s tl hstep
    · by_cases hw' : w' = w
      · subst hw'
        have hstep : lookupA (bagInsertWord s acc w') w' = some ⟨w', s⟩ := by
          unfold bagInsertWord
          rw [hnone, lookupA_append_none hnone]
          simp [lookupA]
        exact bagFold_preserves s tl hstep
      · have hstep : lookupA (bagInsertWord s acc w') w = none := by
          unfold bagInsertWord
          cases hl : lookupA acc w' with
          | some _ => exact hnone
          | none =>
            rw [lookupA_append_none hnone]
            simp [lookupA, hw']
        exact ih _ w h hstep

theorem bagParseCline_preserves {idx : List (String × ConfigReplacePattern)}
    {w : String} {e : ConfigReplacePattern} (h : lookupA idx w = some e)
    (cline : List String) : lookupA (bagParseCline idx cline) w = some e := by
  cases cline with
  | nil => exact h
  | cons c cs => exact bagFold_preserves _ _ h

theorem bagParseCline_first_wins {idx : List (String × ConfigReplacePattern)}
    {w : String} (cline : List String) (hmem : w ∈ cline.map pyStrip)
    (hnone : lookupA idx w = none) :
    lookupA (bagParseCline idx cline) w = some ⟨w, cline.map pyStrip⟩ := by
  cases cline with
  | nil => simp at hmem
  | cons c cs => exact bagFold_inserts _ _ _ _ hmem hnone

/-! ## Helper lemmas: synonym parsing (append, not overwrite) -/

theorem synParseCline_appends {idx : List (String × ConfigReplacePattern)}
    {e : ConfigReplacePattern} (w r : String) (rest : List String)
    (h : lookupA idx (pyStrip w) = some e) :
    synParseCline idx (w :: r :: rest)
      = updateA idx (pyStrip w) ⟨e.pattern, e.replace ++ [pyStrip r]⟩ := by
  simp [synParseCline, h]

/-! ## Helper lemmas: rewrite rule application -/

theorem applyRules_append (t1 t2 : List ConfigReplacePattern) :
    ∀ s, applyRules (t1 ++ t2) s = (applyRules t1 s).bind (applyRules t2) := by
  induction t1 with
  | nil => intro s; rfl
  | cons rp rest ih =>
    intro s
    simp only [List.cons_append, applyRules]
    cases reSub rp.pattern (rp.replace.headD "") s with
    | none => rfl
    | some t => exact ih t

theorem applyRules_isSome (rules : List ConfigReplacePattern)
    (h : ∀ rp ∈ rules, parseRE rp.pattern ≠ none
      ∧ '\\' ∉ (rp.replace.headD "").data) :
    ∀ s, (applyRules rules s).isSome = true := by
  induction rules with
  | nil => intro s; rfl
  | cons rp rest ih =>
    intro s
    simp only [applyRules]
    cases hre : reSub rp.pattern (rp.replace.headD "") s with
    | none =>
      exfalso
      have hp := h rp (by simp)
      simp only [reSub] at hre
      cases hpe : parseRE rp.pattern with
      | none => exact hp.1 hpe
      | some ts =>
        rw [hpe] at hre
        simp at hre
        exact hp.2 (by simpa using hre)
    | some t => exact ih (fun rp' h' => h rp' (by simp [h'])) t

/-! ## Helper lemmas: the synonym scan never overruns its candidate list -/

theorem synScan_isSome (idx : List (String × ConfigReplacePattern)) (qlen : Nat) :
    ∀ (prfx : List String) (processed : Nat) (acc : List String),
      qlen - processed ≤ List.countP (fun p => decide (numToks p = 1)) prfx →
      (synScan idx qlen prfx processed acc).isSome = true := by
  intro prfx
  induction prfx with
  | nil =>
    intro processed acc h
    have hle : qlen ≤ processed := by
      simpa using Nat.le_of_sub_eq_zero (Nat.le_zero.mp (by simpa using h))
    simp [synScan, hle]
  | cons p rest ih =>
    intro processed acc h
    by_cases hle : qlen ≤ processed
    · simp [synScan, hle]
    · rw [synScan]
      rw [if_neg hle]
      simp only []
      have hcount := List.countP_cons (fun q => decide (numToks q = 1)) p rest
      by_cases hsyn : getSynonyms idx p ≠ []
      · rw [if_pos hsyn]
        apply ih
        by_cases h1 : numToks p = 1
        · rw [hcount] at h
          simp [h1] at h
          omega
        · rw [hcount] at h
          simp [h1] at h
          have : 1 ≤ numToks p ∨ numToks p = 0 := by omega
          omega
      · rw [if_neg hsyn]
        by_cases h1 : numToks p = 1
        · rw [if_pos h1]
          apply ih
          rw [hcount] at h
          simp [h1] at h
          omega
        · rw [if_neg h1]
          apply ih
          rw [hcount] at h
          simp [h1] at h
          omega

theorem mem_candDesc_head (t : String) (rest : List String) :
    t ∈ candDesc (t :: rest) := by
  simp only [candDesc]
  refine List.mem_map.mpr ⟨rest.length, List.mem_range.mpr (by simp), ?_⟩
  have h1 : (t :: rest).length - rest.length = 1 := by simp
  rw [h1]
  rfl

theorem countLen1_strTok (toks : List String)
    (h : ∀ t ∈ toks, numToks t = 1) :
    toks.length ≤ List.countP (fun p => decide (numToks p = 1)) (strTokGetPrefixes toks) := by
  induction toks with
  | nil => simp [strTokGetPrefixes]
  | cons t rest ih =>
    simp only [strTokGetPrefixes, List.countP_append, List.length_cons]
    have h1 : 0 < List.countP (fun p => decide (numToks p = 1)) (candDesc (t :: rest)) := by
      apply List.countP_pos_iff.mpr
      exact ⟨t, mem_candDesc_head t rest, by simp [h t (by simp)]⟩
    have h2 := ih (fun t' ht' => h t' (by simp [ht']))
    omega

theorem synonymProcess_fst_isSome (st : TState) :
    ((synonymProcess st).1).isSome = true := by
  by_cases hret : pyStrip (cleanString (parseConfig st).query_string) = ""
  · simp [synonymProcess, hret]
  · simp only [synonymProcess]
    rw [if_neg hret]
    simp only [Option.isSome_map']
    apply synScan_isSome
    have htoks := pyWords_numToks (pyStrip (cleanString (parseConfig st).query_string))
    have hcount := countLen1_strTok _ htoks
    omega

/-! ## Helper lemmas: parse_config only touches the rule tables -/

theorem parseClineState_query_string (st : TState) (cline : List String) :
    (parseClineState st cline).query_string = st.query_string := by
  cases h : st.variant <;> simp [parseClineState, h]

theorem foldl_parseClineState_query_string (rows : List (List String)) :
    ∀ st : TState, (rows.foldl parseClineState st).query_string = st.query_string := by
  induction rows with
  | nil => intro st; rfl
  | cons r rs ih =>
    intro st
    rw [List.foldl_cons, ih, parseClineState_query_string]

theorem parseConfig_query_string (st : TState) :
    (parseConfig st).query_string = st.query_string := by
  unfold parseConfig
  split
  · rfl
  · simpa using foldl_parseClineState_query_string (keptRows st.config) st

theorem rewriteProcess_fst_isSome (st : TState)
    (h : ∀ rp ∈ (parseConfig st).replace_patterns,
      parseRE rp.pattern ≠ none ∧ '\\' ∉ (rp.replace.headD "").data) :
    ((rewriteProcess st).1).isSome = true := by
  simp only [rewriteProcess]
  split
  · rfl
  · exact applyRules_isSome _ h _

/-! ## Claim C4 -/

/-- C4: `alloc_query_transform` fails with the invalid-argument error for
every tag other than "rewrite", "synonym" and "bag", and returns the
corresponding engine for each of the three recognized tags; it never silently
defaults. -/
theorem alloc_query_transform_dispatch (t q n : String) (config : List (List String)) :
    (t ≠ "rewrite" → t ≠ "synonym" → t ≠ "bag" →
      allocQueryTransform t q n config
        = .error "Invalid Query Transform Processor type")
    ∧ allocQueryTransform "rewrite" q n config = .ok (initState .rewrite q n config)
    ∧ allocQueryTransform "synonym" q n config = .ok (initState .synonym q n config)
    ∧ allocQueryTransform "bag" q n config = .ok (initState .bag q n config) := by
  refine ⟨?_, rfl, rfl, rfl⟩
  intro h1 h2 h3
  simp [allocQueryTransform, h1, h2, h3]

/-- Witness for C4 at the tag "bogus" of the spec's test and at "rewrite". -/
theorem alloc_query_transform_dispatch_witness :
    allocQueryTransform "bogus" "q" "n" []
      = .error "Invalid Query Transform Processor type"
    ∧ allocQueryTransform "rewrite" "q" "n" [] = .ok (initState .rewrite "q" "n" []) :=
  ⟨(alloc_query_transform_dispatch "bogus" "q" "n" []).1
      (by decide) (by decide) (by decide),
   (alloc_query_transform_dispatch "rewrite" "q" "n" []).2.1⟩

/-! ## Claim C5 -/

/-- C5: for every non-empty cleaned query, the Rewrite engine applies every
rule's pattern as a search-and-replace strictly in table order, each
substitution operating on the output of the previous one (splitting the table
anywhere shows the second part runs on the first part's output); in
particular the rules ("cat","dog") then ("dog","fish") send "cat" to
"fish". -/
theorem rewrite_applies_rules_in_order :
    (∀ (t1 t2 : List ConfigReplacePattern) (s : String),
        applyRules (t1 ++ t2) s = (applyRules t1 s).bind (applyRules t2))
    ∧ (∀ st : TState, pyStrip (cleanString st.query_string) ≠ "" →
        (rewriteProcess st).1
          = applyRules (parseConfig st).replace_patterns
              (pyStrip (cleanString st.query_string)))
    ∧ (rewriteProcess (initState .rewrite "cat" "n"
        [["cat", "dog"], ["dog", "fish"]])).1 = some "fish" := by
  refine ⟨fun t1 t2 s => applyRules_append t1 t2 s, ?_, by decide⟩
  intro st h
  simp only [rewriteProcess, parseConfig_query_string]
  rw [if_neg h]

/-- Witness for C5 on the concrete instance with one rule and query "cat". -/
theorem rewrite_applies_rules_in_order_witness :
    (rewriteProcess (initState .rewrite "cat" "n" [["cat", "dog"]])).1
      = applyRules (parseConfig (initState .rewrite "cat" "n"
          [["cat", "dog"]])).replace_patterns
          (pyStrip (cleanString (initState .rewrite "cat" "n"
            [["cat", "dog"]]).query_string)) :=
  rewrite_applies_rules_in_order.2.1
    (initState .rewrite "cat" "n" [["cat", "dog"]]) (by decide)

/-! ## Claim C10 -/

/-- C10: the Rewrite pattern field is a regular expression, not a literal:
the two-field rule ("a.c","X") rewrites "abc" inside "abc def" although
"abc" is not the literal text "a.c"; and the single-field rule "foo;bar"
yields the sub-patterns "\bfoo" and "bar\b\s?", so the boundary markers sit
only on the first and last piece of the ';' split — in particular "rebar"
(where "bar" lacks a leading boundary in the text matched) is rewritten. -/
theorem rewrite_pattern_is_regex :
    ((rewriteProcess (initState .rewrite "abc def" "n" [["a.c", "X"]])).1 = some "X def"
      ∧ "abc" ≠ "a.c")
    ∧ ((parseConfig (initState .rewrite "rebar" "n" [["foo;bar"]])).replace_patterns
        = [⟨"\\bfoo", [""]⟩, ⟨"bar\\b\\s?", [""]⟩]
      ∧ (rewriteProcess (initState .rewrite "rebar" "n" [["foo;bar"]])).1 = some "re") :=
  ⟨⟨by decide, by decide⟩, ⟨by decide, by decide⟩⟩

/-! ## Claim C2 -/

/-- C2: contrary to the claim, the synonym rule-table key keeps the raw
(trimmed, not whitespace-collapsed) phrase: a row whose phrase carries a
double space is stored under "new  york" and not under the collapsed
"new york" (which is only stored in the entry's pattern field), so the query
"new york" does not find the entry and is returned without expansion.  This
evaluates the code at the claim's failing input. -/
theorem synonym_key_keeps_raw_whitespace :
    lookupA (parseConfig (initState .synonym "new york" "n"
        [["new  york", "ny"]])).replace_index "new york" = none
    ∧ lookupA (parseConfig (initState .synonym "new york" "n"
        [["new  york", "ny"]])).replace_index "new  york" = some ⟨"new york", ["ny"]⟩
    ∧ (synonymProcess (initState .synonym "new york" "n" [["new  york", "ny"]])).1
        = some "new york" :=
  ⟨by decide, by decide, by decide⟩

/-! ## Claim C8 -/

/-- C8: bag parsing is first-wins: a word already in the table keeps its
entry untouched by every later row, and the first row defining a word maps
it to the full trimmed member list of that row, order preserved, including
the word itself; in particular after rows red,scarlet,crimson and red,pink
the bag for "red" is (red, scarlet, crimson). -/
theorem bag_first_wins :
    (∀ (idx : List (String × ConfigReplacePattern)) (w : String)
        (e : ConfigReplacePattern) (cline : List String),
        lookupA idx w = some e → lookupA (bagParseCline idx cline) w = some e)
    ∧ (∀ (idx : List (String × ConfigReplacePattern)) (w : String)
        (cline : List String),
        w ∈ cline.map pyStrip → lookupA idx w = none →
        lookupA (bagParseCline idx cline) w = some ⟨w, cline.map pyStrip⟩)
    ∧ lookupA (parseConfig (initState .bag "q" "n"
        [["red", "scarlet", "crimson"], ["red", "pink"]])).replace_index "red"
        = some ⟨"red", ["red", "scarlet", "crimson"]⟩ :=
  ⟨fun _ _ _ cline h => bagParseCline_preserves h cline,
   fun _ _ cline hm hn => bagParseCline_first_wins cline hm hn,
   by decide⟩

/-- Witness for C8 on the spec's two rows. -/
theorem bag_first_wins_witness :
    lookupA (bagParseCline [("red", ⟨"red", ["red", "scarlet", "crimson"]⟩)]
        ["red", "pink"]) "red" = some ⟨"red", ["red", "scarlet", "crimson"]⟩
    ∧ lookupA (bagParseCline [] ["red", "scarlet", "crimson"]) "red"
        = some ⟨"red", ["red", "scarlet", "crimson"]⟩ := by
  constructor
  · exact bag_first_wins.1 _ "red" _ ["red", "pink"] (by decide)
  · have h := bag_first_wins.2.1 [] "red" ["red", "scarlet", "crimson"]
      (by decide) (by decide)
    rw [h]
    decide

/-! ## Claim C7 -/

/-- C7 counterexample: with rows car,auto then car,vehicle the query "car"
does not yield the claimed "( car OR auto OR vehicle )": the code writes the
OR-group without spaces inside the parentheses. -/
theorem synonym_repeated_key_appends_counterexample :
    ¬((synonymProcess (initState .synonym "car" "n"
        [["car", "auto"], ["car", "vehicle"]])).1
      = some "( car OR auto OR vehicle )") := by
  decide

/-- C7 (amended): a row whose key already has an entry appends its trimmed
replacement to that entry's replacement list, in row order, leaving the entry
position and every other key unchanged; the expansion of "car" is the
OR-group "(car OR auto OR vehicle)" (no padding inside the parentheses). -/
theorem synonym_repeated_key_appends :
    (∀ (idx : List (String × ConfigReplacePattern)) (e : ConfigReplacePattern)
        (w r : String) (rest : List String), lookupA idx (pyStrip w) = some e →
        lookupA (synParseCline idx (w :: r :: rest)) (pyStrip w)
          = some ⟨e.pattern, e.replace ++ [pyStrip r]⟩
        ∧ ∀ k, k ≠ pyStrip w →
            lookupA (synParseCline idx (w :: r :: rest)) k = lookupA idx k)
    ∧ (synonymProcess (initState .synonym "car" "n"
        [["car", "auto"], ["car", "vehicle"]])).1 = some "(car OR auto OR vehicle)" := by
  constructor
  · intro idx e w r rest h
    constructor
    · rw [synParseCline_appends w r rest h]
      exact lookupA_updateA_self h _
    · intro k hk
      rw [synParseCline_appends w r rest h]
      exact lookupA_updateA_ne _ hk
  · decide

/-- Witness for C7 on the row car,vehicle over a table already holding car. -/
theorem synonym_repeated_key_appends_witness :
    lookupA (synParseCline [("car", ⟨"car", ["auto"]⟩)] ["car", "vehicle"])
        (pyStrip "car")
      = some ⟨"car", ["auto"] ++ [pyStrip "vehicle"]⟩ :=
  (synonym_repeated_key_appends.1 [("car", ⟨"car", ["auto"]⟩)] ⟨"car", ["auto"]⟩
    "car" "vehicle" [] (by decide)).1

/-! ## Claim C6 -/

/-- C6 counterexample: the single-field row "a.c" alters "abc def" (to
"def") although the query contains no occurrence of the literal text "a.c",
because the pattern field is interpreted as a regular expression. -/
theorem rewrite_single_field_counterexample :
    (rewriteProcess (initState .rewrite "abc def" "n" [["a.c"]])).1 = some "def"
    ∧ "def" ≠ "abc def" :=
  ⟨by decide, by decide⟩

/-- C6 (amended): a single-field row whose pattern contains no ';' produces
exactly one rule, the whole-word pattern \b<w>\b\s? with empty replacement;
when the pattern is a plain word this deletes whole-word occurrences
(consuming one optional trailing whitespace) and does not alter words that
merely contain it — "the" turns "the cat sat" into "cat sat" and leaves
"theme park" unchanged.  (Patterns holding ';' or regex metacharacters are
split or matched as regular expressions instead; see C10.) -/
theorem rewrite_single_field_whole_word :
    (∀ (w : String) (pats : List ConfigReplacePattern), ';' ∉ w.data →
        rewriteParseCline pats [w] = pats ++ [⟨"\\b" ++ w ++ "\\b\\s?", [""]⟩])
    ∧ (rewriteProcess (initState .rewrite "the cat sat" "n" [["the"]])).1
        = some "cat sat"
    ∧ (rewriteProcess (initState .rewrite "theme park" "n" [["the"]])).1
        = some "theme park" := by
  refine ⟨?_, by decide, by decide⟩
  intro w pats h
  have hmem : ';' ∉ ("\\b" ++ w ++ "\\b\\s?").data := by
    simp only [String.data_append]
    intro hm
    rcases List.mem_append.mp hm with hm1 | hm2
    · rcases List.mem_append.mp hm1 with ha | hb
      · revert ha
        decide
      · exact h hb
    · revert hm2
      decide
  simp only [rewriteParseCline]
  rw [splitOnCh_no_sep ';' _ hmem]
  simp only [List.map_cons, List.map_nil]
  rw [pyStrip_bwrap]
  rw [show pyStrip "" = "" from rfl]

/-- Witness for C6 on the single-field row "the". -/
theorem rewrite_single_field_whole_word_witness :
    rewriteParseCline [] ["the"] = [⟨"\\b" ++ "the" ++ "\\b\\s?", [""]⟩] := by
  have h := rewrite_single_field_whole_word.1 "the" [] (by decide)
  simpa using h

/-! ## Claim C9 -/

/-- C9 counterexample: a rewrite configuration row whose pattern is the
invalid regular expression "?" makes process() fail (`re.error` raised to the
caller), so not every process() call completes. -/
theorem process_total_counterexample :
    (rewriteProcess (initState .rewrite "cat" "n" [["?", "x"]])).1 = none := by
  decide

/-- C9 (amended): Synonym process() always completes for every configuration
and query (the two-cursor scan never reads past the end of its candidate
list), and Bag process() is a pure pass-through of the cleaned query, never
failing; malformed rows are only ever skipped.  Rewrite process(), however,
can raise re.error to the caller through either argument it hands to re.sub:
through an invalid pattern such as "?" (the counterexample), and through the
replacement template — the row ("cat", "\1") has a valid pattern yet raises
because the replacement references a group the pattern does not have.  Within
the modelled subset (patterns built from literals, '.', backslash-b,
backslash-s and '?'; backslash-free replacements) Rewrite process()
completes. -/
theorem process_failure_boundaries :
    (∀ st : TState, (synonymProcess st).1 ≠ none)
    ∧ (∀ st : TState,
        (∀ rp ∈ (parseConfig st).replace_patterns,
          parseRE rp.pattern ≠ none ∧ '\\' ∉ (rp.replace.headD "").data) →
        (rewriteProcess st).1 ≠ none)
    ∧ (∀ st : TState, (bagProcess st).1 = pyStrip (cleanString st.query_string))
    ∧ (rewriteProcess (initState .rewrite "cat" "n" [["cat", "\\1"]])).1 = none :=
  ⟨fun st => Option.isSome_iff_ne_none.mp (synonymProcess_fst_isSome st),
   fun st h => Option.isSome_iff_ne_none.mp (rewriteProcess_fst_isSome st h),
   fun _ => rfl,
   by decide⟩

/-- Witness for C9 on a rewrite instance whose single rule has a parsing
pattern and a backslash-free replacement. -/
theorem process_failure_boundaries_witness :
    (rewriteProcess (initState .rewrite "cat" "n" [["cat", "dog"]])).1 ≠ none :=
  process_failure_boundaries.2.1 (initState .rewrite "cat" "n" [["cat", "dog"]])
    (by decide)

/-! ## Claim C3 -/

/-- C3 counterexample: the Bag variant's first process() call builds no rule
table at all — it neither parses the configuration (the parsed flag stays
false and the table stays empty) even though parsing that configuration
directly would populate the table. -/
theorem lazy_parse_once_counterexample :
    (bagProcess (initState .bag "q" "n" [["red", "pink"]])).2.replace_index = []
    ∧ (bagProcess (initState .bag "q" "n" [["red", "pink"]])).2.config_parsed = false
    ∧ (parseConfig (initState .bag "q" "n" [["red", "pink"]])).replace_index ≠ [] :=
  ⟨rfl, rfl, by decide⟩

/-- C3 (amended): parse_config is guarded by the parsed flag — it is a no-op
on a parsed instance, always leaves the flag set, and hence runs at most once;
Rewrite and Synonym process() trigger it lazily and a second process() call
reuses the already-built table (identical result and state); Bag process()
never parses and leaves the instance state untouched. -/
theorem lazy_parse_once :
    (∀ st : TState, st.config_parsed = true → parseConfig st = st)
    ∧ (∀ st : TState, (parseConfig st).config_parsed = true)
    ∧ (∀ st : TState, rewriteProcess ((rewriteProcess st).2) = rewriteProcess st)
    ∧ (∀ st : TState, synonymProcess ((synonymProcess st).2) = synonymProcess st)
    ∧ (∀ st : TState, (bagProcess st).2 = st) :=
  ⟨parseConfig_of_parsed, parseConfig_parsed, rewriteProcess_again,
   synonymProcess_again, fun _ => rfl⟩

/-- Witness for C3 on a concrete already-parsed instance. -/
theorem lazy_parse_once_witness :
    parseConfig ⟨.synonym, "q", "n", [["a", "b"]], true, [], []⟩
      = ⟨.synonym, "q", "n", [["a", "b"]], true, [], []⟩ :=
  lazy_parse_once.1 ⟨.synonym, "q", "n", [["a", "b"]], true, [], []⟩ rfl

/-! ## Claim C1 -/

/-- C1 counterexample: with table (new york -> ny, york -> yorkshire) the
query "new york city" does not yield the claimed "( new york OR ny ) city":
the OR-group carries no inner padding, and after the two-word match the scan
index advances only one candidate while the token counter jumps by two, so
the stale length-1 candidate "new" of the already-consumed position is
emitted and "city" is never reached. -/
theorem synonym_scan_counterexample :
    ¬((synonymProcess (initState .synonym "new york city" "n"
        [["new york", "ny"], ["york", "yorkshire"]])).1
      = some "( new york OR ny ) city") := by
  decide

/-- C1 (amended): the Synonym scan walks the start-ascending,
length-descending candidate list with two counters; a match is emitted as
'(' ++ candidate ++ " OR " ++ replacements ++ ')' with no spaces inside the
parentheses, the consumed-token counter advances by the candidate's word
count but the candidate index advances only by one, so when a match is
shorter than the remainder at its position the leftover shorter candidates of
the same position are still examined and re-emitted: "new york city" yields
"(new york OR ny) new".  When the match exhausts the remaining tokens, or has
length one, the scan stays in sync: "new york" yields "(new york OR ny)",
"york city" yields "(york OR yorkshire) city", and with no matching key the
query passes through: "hello world" stays "hello world". -/
theorem synonym_scan_behavior :
    (synonymProcess (initState .synonym "new york city" "n"
        [["new york", "ny"], ["york", "yorkshire"]])).1 = some "(new york OR ny) new"
    ∧ (synonymProcess (initState .synonym "york city" "n"
        [["new york", "ny"], ["york", "yorkshire"]])).1 = some "(york OR yorkshire) city"
    ∧ (synonymProcess (initState .synonym "new york" "n"
        [["new york", "ny"], ["york", "yorkshire"]])).1 = some "(new york OR ny)"
    ∧ (synonymProcess (initState .synonym "hello world" "n" [])).1 = some "hello world" :=
  ⟨by decide, by decide, by decide, by decide⟩
